import Mathlib

/-!
Verification of the concurrent load-testing engine of perfwatch-cli
(tools/loadtest.py): the statistical reducer `_calculate_stats`, the
R-7 percentile function `_percentile`, the per-request error
classification in `make_request`, the HTTP dispatch on the method
string, and the semaphore-based concurrency gate.

Numeric embedding: Python floats are modelled as exact rationals (ℚ);
the claims under study are about exact arithmetic identities, guarded
branches and ordering, not about rounding.  Python ints are ℤ where a
subtraction occurs (`failed`) and ℕ where only counts occur.
-/

namespace PerfWatch

/-! ### Sorting and summary statistics

`sorted(...)` and the helpers from Python's `statistics` module, over ℚ.
-/

/-- Python `sorted(data)` (ascending). -/
def pysorted (data : List ℚ) : List ℚ :=
  List.insertionSort (· ≤ ·) data

/-- Python `statistics.mean(data)`: sum divided by count.  (The Python
function raises on an empty list; `_calculate_stats` only calls it on a
non-empty list, so the `0/0 = 0` convention of ℚ is never exercised.) -/
def pymean (data : List ℚ) : ℚ :=
  data.sum / data.length

/-- Python `min(data)` on a non-empty list (0 as an out-of-contract default). -/
def pymin : List ℚ → ℚ
  | [] => 0
  | x :: xs => xs.foldl min x

/-- Python `max(data)` on a non-empty list (0 as an out-of-contract default). -/
def pymax : List ℚ → ℚ
  | [] => 0
  | x :: xs => xs.foldl max x

/-- Python `statistics.median(data)`: sort; odd count takes the middle
element, even count averages the two middle elements. -/
def pymedian (data : List ℚ) : ℚ :=
  let s := pysorted data
  let n := data.length
  if n = 0 then 0
  else if n % 2 = 1 then s.getD (n / 2) 0
  else (s.getD (n / 2 - 1) 0 + s.getD (n / 2) 0) / 2

/-- The square of Python `statistics.stdev(data)` for 2 or more samples:
the sample variance Σ(x − mean)² / (n − 1).  `stdev` itself is the real
square root of this, which is irrational in general; the development
tracks the square so as to stay in exact arithmetic — a branch of the
code that returns stdev `0` corresponds exactly to variance `0` here. -/
def sampleVariance (data : List ℚ) : ℚ :=
  (data.map (fun x => (x - pymean data) ^ 2)).sum / ((data.length : ℚ) - 1)

/-! ### The percentile function

`LoadTestTool._percentile` (loadtest.py lines 162-174), verbatim:
empty guard returning 0, `k = (len-1) * (percentile/100)`,
`f = int(k)` (= Nat.floor, k is non-negative), `c = f+1 if f+1 < len
else f`, equal-index early return, else the algebraic form
`sorted[f]*(c-k) + sorted[c]*(k-f)`. -/
def percentileFn (sorted_data : List ℚ) (percentile : ℕ) : ℚ :=
  if sorted_data = [] then 0
  else
    let k : ℚ := ((sorted_data.length - 1 : ℕ) : ℚ) * ((percentile : ℚ) / 100)
    let f : ℕ := ⌊k⌋₊
    let c : ℕ := if f + 1 < sorted_data.length then f + 1 else f
    if f = c then sorted_data.getD f 0
    else sorted_data.getD f 0 * ((c : ℚ) - k) + sorted_data.getD c 0 * (k - (f : ℚ))

/-- Modelled from the spec (§4.4): the R-7 linear-interpolation
percentile exactly as the spec words it — `k = (n-1) × (p/100)`,
`f = floor(k)`, `c = min(f+1, n-1)`; return `sorted[f]` when `f == c`,
else `sorted[f] + (sorted[c]-sorted[f]) × (k-f)`.  This is the
refinement target that `percentileFn` (the code) is compared against. -/
def percentileSpecR7 (s : List ℚ) (p : ℕ) : ℚ :=
  let k : ℚ := ((s.length - 1 : ℕ) : ℚ) * ((p : ℚ) / 100)
  let f : ℕ := ⌊k⌋₊
  let c : ℕ := min (f + 1) (s.length - 1)
  if f = c then s.getD f 0
  else s.getD f 0 + (s.getD c 0 - s.getD f 0) * (k - (f : ℚ))

/-! ### The statistics reducer

`LoadTestTool._calculate_stats` (loadtest.py lines 113-160).  The Python
dict result becomes a structure; `stdev_response_time` is tracked via
its square (see `sampleVariance`). -/

structure LoadTestStats where
  total_requests : ℕ
  successful : ℕ
  failed : ℤ
  success_rate : ℚ
  status_codes : List (ℕ × ℕ)
  errors : List String
  duration : ℚ
  rps : ℚ
  avg_response_time : ℚ
  min_response_time : ℚ
  max_response_time : ℚ
  median_response_time : ℚ
  stdev_sq_response_time : ℚ
  p95_response_time : ℚ
  p99_response_time : ℚ
deriving Repr, DecidableEq

/-- `LoadTestTool._calculate_stats`: `successful = len(response_times)`,
`failed = total_requests - successful`, guarded success-rate and rps,
errors capped at the first 10, latency summary over the completed
samples when there are any and all zeros otherwise. -/
def calculateStats (response_times : List ℚ) (status_codes : List (ℕ × ℕ))
    (errors : List String) (total_requests : ℕ) (duration : ℚ) : LoadTestStats :=
  let successful := response_times.length
  { total_requests := total_requests
    successful := successful
    failed := (total_requests : ℤ) - (successful : ℤ)
    success_rate :=
      if 0 < total_requests then (successful : ℚ) / (total_requests : ℚ) * 100 else 0
    status_codes := status_codes
    errors := errors.take 10
    duration := duration
    rps := if 0 < duration then (total_requests : ℚ) / duration else 0
    avg_response_time := if response_times = [] then 0 else pymean response_times
    min_response_time := if response_times = [] then 0 else pymin response_times
    max_response_time := if response_times = [] then 0 else pymax response_times
    median_response_time := if response_times = [] then 0 else pymedian response_times
    stdev_sq_response_time :=
      if response_times = [] then 0
      else if 1 < response_times.length then sampleVariance response_times else 0
    p95_response_time :=
      if response_times = [] then 0 else percentileFn (pysorted response_times) 95
    p99_response_time :=
      if response_times = [] then 0 else percentileFn (pysorted response_times) 99 }

/-! ### The request executor and the run's mutable state

`make_request` (loadtest.py lines 52-90).  The network's behaviour for
one request — which branch of the try/except fires — is abstracted as a
`NetworkEvent`; the body of `make_request` is then a deterministic
update of the run's shared state. -/

/-- What the network does for one issued request: an HTTP response with
a status code and an elapsed time (any status code, including 4xx/5xx),
or one of the three classified failures matching the except clauses of
`make_request`: `httpx.TimeoutException`, `httpx.ConnectError`, or any
other exception carrying a message. -/
inductive NetworkEvent where
  | response (status : ℕ) (elapsed : ℚ)
  | timeout
  | connectError (msg : String)
  | otherError (msg : String)
deriving Repr, DecidableEq

/-- Did the request complete with a status code? -/
def NetworkEvent.isCompleted : NetworkEvent → Bool
  | .response _ _ => true
  | _ => false

/-- The run's shared mutable state: `response_times`, `status_codes`,
`errors`, `completed` (loadtest.py lines 46-49). -/
structure RunState where
  response_times : List ℚ
  status_codes : List (ℕ × ℕ)
  errors : List String
  completed : ℕ
deriving Repr, DecidableEq

/-- `status_codes[code] = status_codes.get(code, 0) + 1` on an
insertion-ordered dict: bump an existing key in place, else append. -/
def tallyStatus : List (ℕ × ℕ) → ℕ → List (ℕ × ℕ)
  | [], code => [(code, 1)]
  | (c, n) :: rest, code =>
      if c = code then (c, n + 1) :: rest else (c, n) :: tallyStatus rest code

/-- The body of `make_request(request_id)` under network behaviour `e`:
on a response, append the elapsed time and tally the status code; on
`httpx.TimeoutException` append "Request {id}: Timeout"; on
`httpx.ConnectError` append "Request {id}: Connection error"; on any
other exception append "Request {id}: {message}".  The `finally` block
increments `completed` unconditionally. -/
def makeRequest (st : RunState) (request_id : ℕ) (e : NetworkEvent) : RunState :=
  let st1 :=
    match e with
    | .response status elapsed =>
        { st with
          response_times := st.response_times ++ [elapsed]
          status_codes := tallyStatus st.status_codes status }
    | .timeout =>
        { st with errors := st.errors ++ ["Request " ++ toString request_id ++ ": Timeout"] }
    | .connectError _ =>
        { st with
          errors := st.errors ++ ["Request " ++ toString request_id ++ ": Connection error"] }
    | .otherError msg =>
        { st with errors := st.errors ++ ["Request " ++ toString request_id ++ ": " ++ msg] }
  { st1 with completed := st1.completed + 1 }

/-- One request per event, ids `0..n-1` as in
`tasks = [make_request(i) for i in range(requests)]`, outcomes recorded
in encounter order. -/
def runRequests (events : List NetworkEvent) : RunState :=
  (events.enum).foldl (fun st p => makeRequest st p.1 p.2) ⟨[], [], [], 0⟩

/-- The whole run: execute every request, then reduce
(`run` calling `_calculate_stats` with `total_requests = requests`). -/
def runLoadTest (events : List NetworkEvent) (duration : ℚ) : LoadTestStats :=
  let st := runRequests events
  calculateStats st.response_times st.status_codes st.errors events.length duration

/-- The failure diagnostic recorded for request `i` under event `e`,
if `e` is a failure: the exact strings of the three except clauses. -/
def failureDiag (i : ℕ) : NetworkEvent → Option String
  | .response _ _ => none
  | .timeout => some ("Request " ++ toString i ++ ": Timeout")
  | .connectError _ => some ("Request " ++ toString i ++ ": Connection error")
  | .otherError msg => some ("Request " ++ toString i ++ ": " ++ msg)

/-! ### HTTP dispatch on the method string

`make_request` lines 62-72: the branch on `method.upper()` decides which
`httpx` call is made and hence which arguments accompany the request. -/

/-- The request as handed to httpx: method actually sent, url, the
`headers=` argument, and the `content=` argument (`none` when the
chosen httpx call has no content parameter supplied). -/
structure SentRequest where
  method : String
  url : String
  headers : Option (List (String × String))
  content : Option String
deriving Repr, DecidableEq

/-- Python `method.upper()` on an HTTP verb: ASCII uppercasing,
character by character.  (Python's str.upper is Unicode-aware, but the
dispatch only compares against the four ASCII verb names.) -/
def pyupper (s : String) : String :=
  String.mk (s.data.map Char.toUpper)

/-- The dispatch of `make_request`: `client.get(url, headers=headers)`
for GET, `client.post/put(url, headers=headers, content=body)` for
POST/PUT, `client.delete(url, headers=headers)` for DELETE, and
`client.request(method, url, headers=headers, content=body)` for any
other verb.  GET and DELETE pass no `content=` argument at all. -/
def buildRequest (method url : String) (headers : Option (List (String × String)))
    (body : Option String) : SentRequest :=
  if pyupper method = "GET" then
    { method := "GET", url := url, headers := headers, content := none }
  else if pyupper method = "POST" then
    { method := "POST", url := url, headers := headers, content := body }
  else if pyupper method = "PUT" then
    { method := "PUT", url := url, headers := headers, content := body }
  else if pyupper method = "DELETE" then
    { method := "DELETE", url := url, headers := headers, content := none }
  else
    { method := method, url := url, headers := headers, content := body }

/-! ### The concurrency gate

`asyncio.Semaphore(concurrent)` guarding the body of `make_request`
(`async with semaphore:`).  Each of the `n` units of work is a little
state machine: waiting to acquire the gate, in flight (holding the
gate), or done (gate released, outcome recorded).  A scheduler step
either admits a waiting task — only when the number of holders is below
the configured maximum `m` — or finishes an in-flight task, which
releases the gate unconditionally: the release models the exit of the
`async with` scope, which happens whether the guarded request returned
a response, timed out, or raised (the except clauses and the `finally`
all sit inside the scope). -/

inductive Phase where
  | waiting
  | inFlight
  | done
deriving Repr, DecidableEq

/-- Number of tasks currently holding the gate. -/
def countInFlight : List Phase → ℕ
  | [] => 0
  | Phase.inFlight :: rest => countInFlight rest + 1
  | _ :: rest => countInFlight rest

/-- Number of tasks that have finished. -/
def countDone : List Phase → ℕ
  | [] => 0
  | Phase.done :: rest => countDone rest + 1
  | _ :: rest => countDone rest

/-- One scheduler step of the gated run with gate capacity `m`. -/
inductive GateStep (m : ℕ) : List Phase → List Phase → Prop
  | acquire (s : List Phase) (i : ℕ) (hi : s.get? i = some Phase.waiting)
      (hcap : countInFlight s < m) : GateStep m s (s.set i Phase.inFlight)
  | finish (s : List Phase) (i : ℕ) (hi : s.get? i = some Phase.inFlight) :
      GateStep m s (s.set i Phase.done)

/-- The states reachable by a run of `n` units of work behind a gate of
capacity `m`, starting from all tasks waiting. -/
def GateReachable (m n : ℕ) (s : List Phase) : Prop :=
  Relation.ReflTransGen (GateStep m) (List.replicate n Phase.waiting) s

/-- The elapsed time recorded for an event, if it completed. -/
def elapsedOf : NetworkEvent → Option ℚ
  | .response _ e => some e
  | _ => none

/-! ### How the fold over requests builds up the run state -/

theorem runFold_response_times (l : List (ℕ × NetworkEvent)) (st : RunState) :
    (l.foldl (fun st p => makeRequest st p.1 p.2) st).response_times
      = st.response_times ++ l.filterMap (fun p => elapsedOf p.2) := by
  induction l generalizing st with
  | nil => simp
  | cons p l ih =>
      obtain ⟨i, e⟩ := p
      rw [List.foldl_cons, ih]
      cases e <;> simp [makeRequest, elapsedOf, List.filterMap_cons]

theorem runFold_errors (l : List (ℕ × NetworkEvent)) (st : RunState) :
    (l.foldl (fun st p => makeRequest st p.1 p.2) st).errors
      = st.errors ++ l.filterMap (fun p => failureDiag p.1 p.2) := by
  induction l generalizing st with
  | nil => simp
  | cons p l ih =>
      obtain ⟨i, e⟩ := p
      rw [List.foldl_cons, ih]
      cases e <;> simp [makeRequest, failureDiag, List.filterMap_cons]

theorem runFold_completed (l : List (ℕ × NetworkEvent)) (st : RunState) :
    (l.foldl (fun st p => makeRequest st p.1 p.2) st).completed
      = st.completed + l.length := by
  induction l generalizing st with
  | nil => simp
  | cons p l ih =>
      obtain ⟨i, e⟩ := p
      rw [List.foldl_cons, ih]
      cases e <;> simp [makeRequest] <;> omega

theorem filterMap_enumFrom_snd {α β : Type _} (g : α → Option β) :
    ∀ (k : ℕ) (l : List α),
      (List.enumFrom k l).filterMap (fun p => g p.2) = l.filterMap g := by
  intro k l
  induction l generalizing k with
  | nil => simp
  | cons a l ih => cases hg : g a <;> simp [List.enumFrom, List.filterMap_cons, hg, ih]

theorem countP_enumFrom_snd {α : Type _} (q : α → Bool) :
    ∀ (k : ℕ) (l : List α),
      (List.enumFrom k l).countP (fun p => q p.2) = l.countP q := by
  intro k l
  induction l generalizing k with
  | nil => rfl
  | cons a l ih => simp [List.countP_cons, ih]

theorem isSome_failureDiag (i : ℕ) (e : NetworkEvent) :
    (failureDiag i e).isSome = !e.isCompleted := by
  cases e <;> rfl

theorem length_filterMap_elapsedOf (l : List NetworkEvent) :
    (l.filterMap elapsedOf).length = (l.filter (fun e => e.isCompleted)).length := by
  rw [List.length_filterMap_eq_countP, List.countP_eq_length_filter]
  congr 1
  apply List.filter_congr
  intro a _
  cases a <;> rfl

theorem length_filterMap_failureDiag (k : ℕ) (l : List NetworkEvent) :
    ((List.enumFrom k l).filterMap (fun p => failureDiag p.1 p.2)).length
      = (l.filter (fun e => !e.isCompleted)).length := by
  rw [List.length_filterMap_eq_countP, ← List.countP_eq_length_filter,
    ← countP_enumFrom_snd (fun e => !e.isCompleted) k l]
  apply List.countP_congr
  intro p _
  rw [isSome_failureDiag]

theorem runRequests_response_times (events : List NetworkEvent) :
    (runRequests events).response_times = events.filterMap elapsedOf := by
  simp [runRequests, List.enum, runFold_response_times, filterMap_enumFrom_snd]

theorem runRequests_errors (events : List NetworkEvent) :
    (runRequests events).errors
      = events.enum.filterMap (fun p => failureDiag p.1 p.2) := by
  simp [runRequests, runFold_errors]

theorem runRequests_completed (events : List NetworkEvent) :
    (runRequests events).completed = events.length := by
  simp [runRequests, runFold_completed]

theorem filter_completed_partition (l : List NetworkEvent) :
    (l.filter (fun e => e.isCompleted)).length
      + (l.filter (fun e => !e.isCompleted)).length = l.length := by
  induction l with
  | nil => rfl
  | cons a l ih =>
      cases ha : a.isCompleted with
      | true =>
          rw [List.filter_cons_of_pos (by simp [ha]),
            List.filter_cons_of_neg (by simp [ha])]
          simp only [List.length_cons]
          omega
      | false =>
          rw [List.filter_cons_of_neg (by simp [ha]),
            List.filter_cons_of_pos (by simp [ha])]
          simp only [List.length_cons]
          omega

/-! ### Claim theorems: the reducer's counting and error fields -/

/-- C4: for every totalRequests and every collection of outcomes fed to
the reducer, successful + failed = totalRequests, where successful is
the number of outcomes that carry a status code. -/
theorem successful_add_failed_eq_total (events : List NetworkEvent) (total : ℕ) (d : ℚ) :
    ((calculateStats (runRequests events).response_times (runRequests events).status_codes
        (runRequests events).errors total d).successful : ℤ)
      + (calculateStats (runRequests events).response_times (runRequests events).status_codes
        (runRequests events).errors total d).failed = (total : ℤ)
    ∧ (calculateStats (runRequests events).response_times (runRequests events).status_codes
        (runRequests events).errors total d).successful
      = (events.filter (fun e => e.isCompleted)).length := by
  constructor
  · simp [calculateStats]
  · simp [calculateStats, runRequests_response_times, length_filterMap_elapsedOf]

/-- C5: the errors field of the result is exactly the first 10 failure
diagnostics in encounter order; its length never exceeds 10 and is
exactly 10 when at least 10 requests failed; excess failures are still
counted in the failed tally. -/
theorem errors_first_ten_in_order (events : List NetworkEvent) (d : ℚ) :
    (runLoadTest events d).errors
      = (events.enum.filterMap (fun p => failureDiag p.1 p.2)).take 10
    ∧ (runLoadTest events d).errors.length ≤ 10
    ∧ (10 ≤ (events.filter (fun e => !e.isCompleted)).length
        → (runLoadTest events d).errors.length = 10)
    ∧ (runLoadTest events d).failed
      = ((events.filter (fun e => !e.isCompleted)).length : ℤ) := by
  have herr := runRequests_errors events
  have hlen := length_filterMap_failureDiag 0 events
  have hrt := runRequests_response_times events
  have hpart := filter_completed_partition events
  refine ⟨?_, ?_, ?_, ?_⟩
  · simp [runLoadTest, calculateStats, herr, List.enum_eq_enumFrom]
  · simp [runLoadTest, calculateStats, List.length_take]
  · intro h10
    simp only [runLoadTest, calculateStats, herr, List.enum_eq_enumFrom, List.length_take]
    omega
  · simp only [runLoadTest, calculateStats, hrt, length_filterMap_elapsedOf]
    omega

/-- C6: every per-request failure is recorded exactly once, with the
reason mapped from the raised exception — Timeout, Connection error, or
the other exception's message — and no failure aborts the run: the
completion counter always advances and a complete result with
total_requests = n is produced even when every request failed. -/
theorem failure_classification_total :
    (∀ st i, (makeRequest st i NetworkEvent.timeout).errors
        = st.errors ++ ["Request " ++ toString i ++ ": Timeout"])
    ∧ (∀ st i msg, (makeRequest st i (NetworkEvent.connectError msg)).errors
        = st.errors ++ ["Request " ++ toString i ++ ": Connection error"])
    ∧ (∀ st i msg, (makeRequest st i (NetworkEvent.otherError msg)).errors
        = st.errors ++ ["Request " ++ toString i ++ ": " ++ msg])
    ∧ (∀ st i e, (makeRequest st i e).completed = st.completed + 1)
    ∧ (∀ events, (runRequests events).errors.length
        = (events.filter (fun e => !e.isCompleted)).length)
    ∧ (∀ (events : List NetworkEvent) (d : ℚ), (∀ e ∈ events, e.isCompleted = false) →
        (runLoadTest events d).total_requests = events.length
        ∧ (runLoadTest events d).successful = 0
        ∧ (runLoadTest events d).failed = (events.length : ℤ)) := by
  refine ⟨fun st i => rfl, fun st i msg => rfl, fun st i msg => rfl,
    fun st i e => by cases e <;> rfl, ?_, ?_⟩
  · intro events
    rw [runRequests_errors, List.enum_eq_enumFrom, length_filterMap_failureDiag]
  · intro events d hfail
    have hrt := runRequests_response_times events
    have : events.filterMap elapsedOf = [] := by
      rw [List.filterMap_eq_nil_iff]
      intro e he
      have := hfail e he
      cases e <;> simp_all [NetworkEvent.isCompleted, elapsedOf]
    refine ⟨rfl, ?_, ?_⟩ <;> simp [runLoadTest, calculateStats, hrt, this]

/-- C6 witness: a run of three requests that all fail still yields a
complete result with total 3, successful 0, failed 3. -/
theorem failure_classification_total_witness :
    (runLoadTest [NetworkEvent.timeout, NetworkEvent.connectError "refused",
        NetworkEvent.otherError "boom"] 1).total_requests = 3
    ∧ (runLoadTest [NetworkEvent.timeout, NetworkEvent.connectError "refused",
        NetworkEvent.otherError "boom"] 1).successful = 0
    ∧ (runLoadTest [NetworkEvent.timeout, NetworkEvent.connectError "refused",
        NetworkEvent.otherError "boom"] 1).failed = 3 :=
  failure_classification_total.2.2.2.2.2
    [NetworkEvent.timeout, NetworkEvent.connectError "refused",
      NetworkEvent.otherError "boom"] 1
    (by intro e he; fin_cases he <;> rfl)

/-- C3: with zero completed outcomes every latency field is 0, and the
guarded branches give successRate 0 for total 0 and rps 0 for
duration 0 — no division is ever attempted. -/
theorem empty_sample_all_zero (sc : List (ℕ × ℕ)) (errs : List String) (total : ℕ) (d : ℚ) :
    (calculateStats [] sc errs total d).avg_response_time = 0
    ∧ (calculateStats [] sc errs total d).min_response_time = 0
    ∧ (calculateStats [] sc errs total d).max_response_time = 0
    ∧ (calculateStats [] sc errs total d).median_response_time = 0
    ∧ (calculateStats [] sc errs total d).stdev_sq_response_time = 0
    ∧ (calculateStats [] sc errs total d).p95_response_time = 0
    ∧ (calculateStats [] sc errs total d).p99_response_time = 0
    ∧ (total = 0 → (calculateStats [] sc errs total d).success_rate = 0)
    ∧ (d = 0 → (calculateStats [] sc errs total d).rps = 0) := by
  refine ⟨by simp [calculateStats], by simp [calculateStats], by simp [calculateStats],
    by simp [calculateStats], by simp [calculateStats], by simp [calculateStats],
    by simp [calculateStats], ?_, ?_⟩
  · intro h
    simp [calculateStats, h]
  · intro h
    simp [calculateStats, h]

/-- C3 witness: the all-zero result at the concrete empty reduction with
total 0 and duration 0. -/
theorem empty_sample_all_zero_witness :
    (calculateStats [] [] [] 0 0).avg_response_time = 0
    ∧ (calculateStats [] [] [] 0 0).success_rate = 0
    ∧ (calculateStats [] [] [] 0 0).rps = 0 :=
  ⟨(empty_sample_all_zero [] [] 0 0).1,
    (empty_sample_all_zero [] [] 0 0).2.2.2.2.2.2.2.1 rfl,
    (empty_sample_all_zero [] [] 0 0).2.2.2.2.2.2.2.2 rfl⟩

/-- C10: a single completed outcome makes every location statistic equal
to that sample and the standard deviation 0 (guarded branch, and the
percentile index collapses to f = c = 0). -/
theorem single_sample_stats (x : ℚ) (sc : List (ℕ × ℕ)) (errs : List String)
    (total : ℕ) (d : ℚ) :
    (calculateStats [x] sc errs total d).avg_response_time = x
    ∧ (calculateStats [x] sc errs total d).min_response_time = x
    ∧ (calculateStats [x] sc errs total d).max_response_time = x
    ∧ (calculateStats [x] sc errs total d).median_response_time = x
    ∧ (calculateStats [x] sc errs total d).p95_response_time = x
    ∧ (calculateStats [x] sc errs total d).p99_response_time = x
    ∧ (calculateStats [x] sc errs total d).stdev_sq_response_time = 0 := by
  refine ⟨?_, ?_, ?_, ?_, ?_, ?_, ?_⟩ <;>
    simp [calculateStats, pymean, pymin, pymax, pymedian, pysorted, percentileFn,
      List.insertionSort, List.orderedInsert]

/-- C2: concrete scenario A — ten completed samples
[100×9, 1000] ms, total 10, no failures: avg 190, min 100, max 1000,
median 100, p95 595 (k = 8.55 interpolating between sorted[8] = 100 and
sorted[9] = 1000), success rate 100, failed 0. -/
theorem stats_scenario_a :
    (calculateStats [100, 100, 100, 100, 100, 100, 100, 100, 100, 1000]
      [(200, 10)] [] 10 1).avg_response_time = 190
    ∧ (calculateStats [100, 100, 100, 100, 100, 100, 100, 100, 100, 1000]
      [(200, 10)] [] 10 1).min_response_time = 100
    ∧ (calculateStats [100, 100, 100, 100, 100, 100, 100, 100, 100, 1000]
      [(200, 10)] [] 10 1).max_response_time = 1000
    ∧ (calculateStats [100, 100, 100, 100, 100, 100, 100, 100, 100, 1000]
      [(200, 10)] [] 10 1).median_response_time = 100
    ∧ (calculateStats [100, 100, 100, 100, 100, 100, 100, 100, 100, 1000]
      [(200, 10)] [] 10 1).p95_response_time = 595
    ∧ (calculateStats [100, 100, 100, 100, 100, 100, 100, 100, 100, 1000]
      [(200, 10)] [] 10 1).success_rate = 100
    ∧ (calculateStats [100, 100, 100, 100, 100, 100, 100, 100, 100, 1000]
      [(200, 10)] [] 10 1).failed = 0 := by
  have hf : ⌊(171 / 20 : ℚ)⌋₊ = 8 := by
    rw [Nat.floor_eq_iff] <;> norm_num
  refine ⟨?_, ?_, ?_, ?_, ?_, ?_, ?_⟩
  · norm_num [calculateStats, pymean, List.cons_ne_nil]
  · norm_num [calculateStats, pymin, List.cons_ne_nil]
  · norm_num [calculateStats, pymax, List.cons_ne_nil]
  · norm_num [calculateStats, pymedian, pysorted, List.insertionSort, List.orderedInsert,
      List.cons_ne_nil]
  · norm_num [calculateStats, pysorted, List.insertionSort, List.orderedInsert,
      percentileFn, hf, List.cons_ne_nil]
  · norm_num [calculateStats]
  · norm_num [calculateStats]

/-- C5 witness: a run of 50 timeouts retains exactly the first 10
diagnostics. -/
theorem errors_first_ten_in_order_witness :
    10 ≤ ((List.replicate 50 NetworkEvent.timeout).filter (fun e => !e.isCompleted)).length
    ∧ (runLoadTest (List.replicate 50 NetworkEvent.timeout) 1).errors.length = 10 :=
  ⟨by decide,
    (errors_first_ten_in_order (List.replicate 50 NetworkEvent.timeout) 1).2.2.1 (by decide)⟩

/-! ### Claim theorems: the concurrency gate -/

/-- How far a task has progressed: waiting 0, in flight 1, done 2. -/
def phaseRank : Phase → ℕ
  | .waiting => 0
  | .inFlight => 1
  | .done => 2

/-- Total progress of all tasks. -/
def rankSum : List Phase → ℕ
  | [] => 0
  | p :: rest => phaseRank p + rankSum rest

theorem countInFlight_set (s : List Phase) (i : ℕ) (a b : Phase)
    (h : s.get? i = some a) :
    countInFlight (s.set i b) + (if a = Phase.inFlight then 1 else 0)
      = countInFlight s + (if b = Phase.inFlight then 1 else 0) := by
  induction s generalizing i with
  | nil => simp at h
  | cons p rest ih =>
      cases i with
      | zero =>
          simp only [List.get?_cons_zero, Option.some_inj] at h
          subst h
          cases p <;> cases b <;> simp [countInFlight, List.set] <;> omega
      | succ i =>
          simp only [List.get?_cons_succ] at h
          have hrec := ih i h
          cases p <;> simp [countInFlight, List.set] <;> omega

theorem rankSum_set (s : List Phase) (i : ℕ) (a b : Phase)
    (h : s.get? i = some a) :
    rankSum (s.set i b) + phaseRank a = rankSum s + phaseRank b := by
  induction s generalizing i with
  | nil => simp at h
  | cons p rest ih =>
      cases i with
      | zero =>
          simp only [List.get?_cons_zero, Option.some_inj] at h
          subst h
          simp [rankSum, List.set]
          omega
      | succ i =>
          simp only [List.get?_cons_succ] at h
          have hrec := ih i h
          simp [rankSum, List.set]
          omega

theorem countInFlight_replicate_waiting (n : ℕ) :
    countInFlight (List.replicate n Phase.waiting) = 0 := by
  induction n with
  | zero => rfl
  | succ n ih => simp [List.replicate, countInFlight, ih]

theorem countDone_eq_length_of_all_done (s : List Phase)
    (h : ∀ p ∈ s, p = Phase.done) :
    countDone s = s.length := by
  induction s with
  | nil => rfl
  | cons p rest ih =>
      have hp := h p (List.mem_cons_self p rest)
      subst hp
      simp [countDone, ih fun q hq => h q (List.mem_cons_of_mem _ hq)]

/-- C7: in every state reachable by a gated run of n units of work, the
number of simultaneously in-flight invocations never exceeds the
configured capacity m (so never exceeds 1 when m = 1); the task list
keeps exactly n entries and a terminal state has all n outcomes, none
duplicated or missing; and every scheduler step advances exactly one
task by exactly one stage and never moves a task backwards — so each
task acquires once and releases once, the release (inFlight → done)
being unconditional on the request's outcome. -/
theorem gate_bounds_in_flight (m n : ℕ) (s : List Phase) (h : GateReachable m n s) :
    countInFlight s ≤ m
    ∧ s.length = n
    ∧ ((∀ p ∈ s, p = Phase.done) → countDone s = n)
    ∧ (∀ t t', GateStep m t t' →
        rankSum t' = rankSum t + 1
        ∧ ∀ j a b, t.get? j = some a → t'.get? j = some b → phaseRank a ≤ phaseRank b) := by
  have hstep_facts : ∀ t t', GateStep m t t' →
      rankSum t' = rankSum t + 1
      ∧ ∀ j a b, t.get? j = some a → t'.get? j = some b → phaseRank a ≤ phaseRank b := by
    intro t t' hstep
    rcases hstep with ⟨i, hi, hcap⟩ | ⟨i, hi⟩ <;>
      [ (have hrs := rankSum_set t i Phase.waiting Phase.inFlight hi);
        (have hrs := rankSum_set t i Phase.inFlight Phase.done hi) ] <;>
      constructor
    · simp [phaseRank] at hrs
      omega
    · intro j a b ha hb
      by_cases hj : i = j
      · subst hj
        rw [List.get?_set_eq_of_lt _ (List.get?_eq_some.mp hi).1] at hb
        rw [hi] at ha
        simp only [Option.some_inj] at ha hb
        subst ha
        subst hb
        simp [phaseRank]
      · rw [List.get?_set_ne _ _ hj] at hb
        rw [ha] at hb
        simp only [Option.some_inj] at hb
        subst hb
        exact le_refl _
    · simp [phaseRank] at hrs
      omega
    · intro j a b ha hb
      by_cases hj : i = j
      · subst hj
        rw [List.get?_set_eq_of_lt _ (List.get?_eq_some.mp hi).1] at hb
        rw [hi] at ha
        simp only [Option.some_inj] at ha hb
        subst ha
        subst hb
        simp [phaseRank]
      · rw [List.get?_set_ne _ _ hj] at hb
        rw [ha] at hb
        simp only [Option.some_inj] at hb
        subst hb
        exact le_refl _
  have hmain : countInFlight s ≤ m ∧ s.length = n := by
    induction h with
    | refl =>
        refine ⟨?_, by simp⟩
        rw [countInFlight_replicate_waiting]
        exact Nat.zero_le m
    | tail hsteps hstep ih =>
        rename_i t u
        rcases hstep with ⟨i, hi, hcap⟩ | ⟨i, hi⟩
        · have hc := countInFlight_set t i Phase.waiting Phase.inFlight hi
          simp only [List.length_set]
          refine ⟨?_, ih.2⟩
          simp [phaseRank] at hc
          omega
        · have hc := countInFlight_set t i Phase.inFlight Phase.done hi
          simp only [List.length_set]
          refine ⟨?_, ih.2⟩
          simp [phaseRank] at hc
          omega
  exact ⟨hmain.1, hmain.2, fun hall => by
    rw [countDone_eq_length_of_all_done s hall, hmain.2], hstep_facts⟩

/-- C7 witness: a serial run (capacity 1) of a single task, stepped to
completion: the bound, the task count and the terminal outcome count
all check out on the concrete trace. -/
theorem gate_bounds_in_flight_witness :
    countInFlight [Phase.done] ≤ 1
    ∧ [Phase.done].length = 1
    ∧ countDone [Phase.done] = 1 := by
  have h1 : GateStep 1 [Phase.waiting] [Phase.inFlight] := by
    have h := GateStep.acquire (m := 1) [Phase.waiting] 0 rfl
      (by simp [countInFlight])
    simpa using h
  have h2 : GateStep 1 [Phase.inFlight] [Phase.done] := by
    have h := GateStep.finish (m := 1) [Phase.inFlight] 0 rfl
    simpa using h
  have hreach : GateReachable 1 1 [Phase.done] :=
    Relation.ReflTransGen.head h1 (Relation.ReflTransGen.single h2)
  have hall : ∀ p ∈ [Phase.done], p = Phase.done := by simp
  exact ⟨(gate_bounds_in_flight 1 1 [Phase.done] hreach).1,
    (gate_bounds_in_flight 1 1 [Phase.done] hreach).2.1,
    (gate_bounds_in_flight 1 1 [Phase.done] hreach).2.2.1 hall⟩

/-! ### Claim theorems: the percentile function against the spec -/

/-- C1: on every non-empty ascending-sorted sample and p ∈ {95, 99},
the code's percentile — with c chosen as f+1 when in range else f, and
the algebraic form sorted[f]·(c−k) + sorted[c]·(k−f) — returns exactly
the R-7 linear-interpolation value worded by the spec, over exact
arithmetic. -/
theorem percentile_matches_spec_r7 (s : List ℚ) (p : ℕ) (hne : s ≠ [])
    (hsort : s.Sorted (· ≤ ·)) (hp : p = 95 ∨ p = 99) :
    percentileFn s p = percentileSpecR7 s p := by
  have hn : 1 ≤ s.length := List.length_pos.mpr hne
  simp only [percentileFn, percentileSpecR7, if_neg hne]
  set k : ℚ := ((s.length - 1 : ℕ) : ℚ) * ((p : ℚ) / 100) with hk_def
  set f : ℕ := ⌊k⌋₊ with hf_def
  have hkle : k ≤ ((s.length - 1 : ℕ) : ℚ) := by
    have hp1 : ((p : ℚ) / 100) ≤ 1 := by
      rcases hp with h | h <;> subst h <;> norm_num
    calc k ≤ ((s.length - 1 : ℕ) : ℚ) * 1 :=
          mul_le_mul_of_nonneg_left hp1 (by positivity)
      _ = ((s.length - 1 : ℕ) : ℚ) := mul_one _
  have hf_le : f ≤ s.length - 1 := by
    have h := Nat.floor_le_floor hkle
    simpa [Nat.floor_natCast] using h
  have hcc : (if f + 1 < s.length then f + 1 else f) = min (f + 1) (s.length - 1) := by
    split_ifs with h <;> omega
  rw [hcc]
  split_ifs with h
  · rfl
  · have hmin : min (f + 1) (s.length - 1) = f + 1 := by omega
    rw [hmin]
    push_cast
    ring

/-- C1 witness: the sorted three-element sample [1, 2, 3] at p = 95. -/
theorem percentile_matches_spec_r7_witness :
    ([(1 : ℚ), 2, 3] ≠ [] ∧ ([(1 : ℚ), 2, 3].Sorted (· ≤ ·)) ∧ ((95 : ℕ) = 95 ∨ (95 : ℕ) = 99))
    ∧ percentileFn [(1 : ℚ), 2, 3] 95 = percentileSpecR7 [(1 : ℚ), 2, 3] 95 :=
  ⟨⟨by simp, by norm_num [List.sorted_cons], Or.inl rfl⟩,
    percentile_matches_spec_r7 [(1 : ℚ), 2, 3] 95 (by simp)
      (by norm_num [List.sorted_cons]) (Or.inl rfl)⟩

/-! ### Percentile ordering machinery -/

theorem sorted_getD_mono (s : List ℚ) (hs : s.Sorted (· ≤ ·)) (i j : ℕ)
    (hij : i ≤ j) (hj : j < s.length) : s.getD i 0 ≤ s.getD j 0 := by
  have hi : i < s.length := lt_of_le_of_lt hij hj
  rw [List.getD_eq_getElem?_getD, List.getD_eq_getElem?_getD,
    List.getElem?_eq_getElem hi, List.getElem?_eq_getElem hj]
  simp only [Option.getD_some]
  have h := hs.rel_get_of_le (a := ⟨i, hi⟩) (b := ⟨j, hj⟩) (by simpa using hij)
  simpa using h

/-- The percentile function is monotone in p on a sorted sample. -/
theorem percentileFn_mono (s : List ℚ) (hs : s.Sorted (· ≤ ·)) (hne : s ≠ [])
    (p q : ℕ) (hpq : p ≤ q) (hq : q ≤ 100) :
    percentileFn s p ≤ percentileFn s q := by
  have hn : 1 ≤ s.length := List.length_pos.mpr hne
  simp only [percentileFn, if_neg hne]
  set k1 : ℚ := ((s.length - 1 : ℕ) : ℚ) * ((p : ℚ) / 100) with hk1def
  set k2 : ℚ := ((s.length - 1 : ℕ) : ℚ) * ((q : ℚ) / 100) with hk2def
  have hk10 : 0 ≤ k1 := by rw [hk1def]; positivity
  have hk20 : 0 ≤ k2 := by rw [hk2def]; positivity
  have hpq' : (p : ℚ) ≤ (q : ℚ) := by exact_mod_cast hpq
  have hC : (0 : ℚ) ≤ ((s.length - 1 : ℕ) : ℚ) := by positivity
  have hk12 : k1 ≤ k2 := by
    rw [hk1def, hk2def]
    exact mul_le_mul_of_nonneg_left (by linarith) hC
  have hk2le : k2 ≤ ((s.length - 1 : ℕ) : ℚ) := by
    rw [hk2def]
    have hq1 : ((q : ℚ) / 100) ≤ 1 := by
      rw [div_le_one (by norm_num)]
      exact_mod_cast hq
    calc ((s.length - 1 : ℕ) : ℚ) * ((q : ℚ) / 100)
        ≤ ((s.length - 1 : ℕ) : ℚ) * 1 := mul_le_mul_of_nonneg_left hq1 hC
      _ = _ := mul_one _
  set f1 : ℕ := ⌊k1⌋₊ with hf1def
  set f2 : ℕ := ⌊k2⌋₊ with hf2def
  have hf12 : f1 ≤ f2 := Nat.floor_le_floor hk12
  have hf2le : f2 ≤ s.length - 1 := by
    rw [hf2def]
    have h := Nat.floor_le_floor hk2le
    simpa [Nat.floor_natCast] using h
  have hf1le : f1 ≤ s.length - 1 := le_trans hf12 hf2le
  have hf1k : (f1 : ℚ) ≤ k1 := by rw [hf1def]; exact Nat.floor_le hk10
  have hf2k : (f2 : ℚ) ≤ k2 := by rw [hf2def]; exact Nat.floor_le hk20
  have hk1f : k1 < (f1 : ℚ) + 1 := by
    rw [hf1def]
    exact_mod_cast Nat.lt_floor_add_one k1
  have hk2f : k2 < (f2 : ℚ) + 1 := by
    rw [hf2def]
    exact_mod_cast Nat.lt_floor_add_one k2
  set c1 : ℕ := if f1 + 1 < s.length then f1 + 1 else f1 with hc1def
  set c2 : ℕ := if f2 + 1 < s.length then f2 + 1 else f2 with hc2def
  have hc1 : (f1 + 1 < s.length ∧ c1 = f1 + 1) ∨ (¬f1 + 1 < s.length ∧ c1 = f1) := by
    rw [hc1def]
    split_ifs with h
    · exact Or.inl ⟨h, rfl⟩
    · exact Or.inr ⟨h, rfl⟩
  have hc2 : (f2 + 1 < s.length ∧ c2 = f2 + 1) ∨ (¬f2 + 1 < s.length ∧ c2 = f2) := by
    rw [hc2def]
    split_ifs with h
    · exact Or.inl ⟨h, rfl⟩
    · exact Or.inr ⟨h, rfl⟩
  rcases Nat.eq_or_lt_of_le hf12 with heq | hlt
  · -- same floor cell: both interpolate over the same pair of samples
    have hcc : c1 = c2 := by rw [hc1def, hc2def, heq]
    rw [← heq, ← hcc] at *
    split_ifs with h
    · exact le_refl _
    · have hc1i : f1 + 1 < s.length ∧ c1 = f1 + 1 := by
        rcases hc1 with hok | ⟨_, hbad⟩
        · exact hok
        · exact absurd hbad.symm h
      rw [hc1i.2]
      have hg := sorted_getD_mono s hs f1 (f1 + 1) (Nat.le_succ f1) hc1i.1
      push_cast
      nlinarith [mul_nonneg (sub_nonneg.2 hg) (sub_nonneg.2 hk12)]
  · -- f1 < f2: chain through the samples between the two cells
    have hv1 : (if f1 = c1 then s.getD f1 0
        else s.getD f1 0 * ((c1 : ℚ) - k1) + s.getD c1 0 * (k1 - (f1 : ℚ)))
        ≤ s.getD c1 0 := by
      split_ifs with h
      · rw [h]
      · have hc1i : f1 + 1 < s.length ∧ c1 = f1 + 1 := by
          rcases hc1 with hok | ⟨_, hbad⟩
          · exact hok
          · exact absurd hbad.symm h
        rw [hc1i.2]
        have hg := sorted_getD_mono s hs f1 (f1 + 1) (Nat.le_succ f1) hc1i.1
        push_cast
        nlinarith [mul_nonneg (sub_nonneg.2 hg) (sub_nonneg.2 (le_of_lt hk1f))]
    have hv2 : s.getD f2 0 ≤ (if f2 = c2 then s.getD f2 0
        else s.getD f2 0 * ((c2 : ℚ) - k2) + s.getD c2 0 * (k2 - (f2 : ℚ))) := by
      split_ifs with h
      · exact le_refl _
      · have hc2i : f2 + 1 < s.length ∧ c2 = f2 + 1 := by
          rcases hc2 with hok | ⟨_, hbad⟩
          · exact hok
          · exact absurd hbad.symm h
        rw [hc2i.2]
        have hg := sorted_getD_mono s hs f2 (f2 + 1) (Nat.le_succ f2) hc2i.1
        push_cast
        nlinarith [mul_nonneg (sub_nonneg.2 hg) (sub_nonneg.2 hf2k)]
    have hc1f2 : c1 ≤ f2 := by
      rcases hc1 with ⟨_, h⟩ | ⟨_, h⟩ <;> omega
    have hf2lt : f2 < s.length := by omega
    have hmid : s.getD c1 0 ≤ s.getD f2 0 := sorted_getD_mono s hs c1 f2 hc1f2 hf2lt
    exact le_trans (le_trans hv1 hmid) hv2

/-- At p = 50 the code's percentile coincides with the textbook median
of the sorted list — the middle element for odd counts, the average of
the two middle elements for even counts. -/
theorem percentileFn_50 (s : List ℚ) (hne : s ≠ []) :
    percentileFn s 50 = if s.length % 2 = 1 then s.getD (s.length / 2) 0
      else (s.getD (s.length / 2 - 1) 0 + s.getD (s.length / 2) 0) / 2 := by
  have hn : 1 ≤ s.length := List.length_pos.mpr hne
  simp only [percentileFn, if_neg hne]
  rcases Nat.even_or_odd s.length with ⟨t, ht⟩ | ⟨t, ht⟩
  · -- even length: s.length = 2t with t ≥ 1
    have ht2 : s.length = 2 * t := by omega
    rw [ht2] at hn ⊢
    have htpos : 1 ≤ t := by omega
    have hK : ((2 * t - 1 : ℕ) : ℚ) * (((50 : ℕ) : ℚ) / 100) = (t : ℚ) - 1 / 2 := by
      rw [Nat.cast_sub (by omega : 1 ≤ 2 * t)]
      push_cast
      ring
    rw [hK]
    have hF : ⌊(t : ℚ) - 1 / 2⌋₊ = t - 1 := by
      rw [Nat.floor_eq_iff (by
        rw [sub_nonneg]
        have : (1 : ℚ) ≤ (t : ℚ) := by exact_mod_cast htpos
        linarith)]
      rw [Nat.cast_sub htpos]
      push_cast
      constructor <;> linarith
    rw [hF]
    rw [if_pos (by omega : t - 1 + 1 < 2 * t), if_neg (by omega : ¬t - 1 = t - 1 + 1),
      if_neg (by omega : ¬2 * t % 2 = 1)]
    have e6 : 2 * t / 2 = t := by omega
    have e7 : t - 1 + 1 = t := by omega
    rw [e6, e7]
    rw [Nat.cast_sub htpos]
    push_cast
    ring
  · -- odd length: s.length = 2t + 1
    rw [ht] at hn ⊢
    have e1 : 2 * t + 1 - 1 = 2 * t := by omega
    rw [e1]
    have hK : ((2 * t : ℕ) : ℚ) * (((50 : ℕ) : ℚ) / 100) = (t : ℚ) := by
      push_cast
      ring
    rw [hK, Nat.floor_natCast]
    rw [if_pos (by omega : (2 * t + 1) % 2 = 1)]
    have e3 : (2 * t + 1) / 2 = t := by omega
    rw [e3]
    rcases Nat.eq_zero_or_pos t with rfl | htpos
    · norm_num
    · rw [if_pos (by omega : t + 1 < 2 * t + 1), if_neg (by omega : ¬t = t + 1)]
      push_cast
      ring

/-- Python's median of the raw sample equals the code's percentile at
p = 50 on the sorted sample. -/
theorem pymedian_eq_percentileFn_50 (data : List ℚ) (hne : data ≠ []) :
    pymedian data = percentileFn (pysorted data) 50 := by
  have hslen : (pysorted data).length = data.length :=
    (List.perm_insertionSort _ _).length_eq
  have hn : 1 ≤ data.length := List.length_pos.mpr hne
  have hsne : pysorted data ≠ [] := by
    apply List.ne_nil_of_length_pos
    omega
  rw [percentileFn_50 _ hsne, hslen]
  simp only [pymedian]
  rw [if_neg (by omega : ¬data.length = 0)]

/-- A sample whose values are all equal to a has percentile a at every
p ≤ 100. -/
theorem percentileFn_const (s : List ℚ) (a : ℚ) (hne : s ≠ [])
    (hall : ∀ x ∈ s, x = a) (p : ℕ) (hp : p ≤ 100) :
    percentileFn s p = a := by
  have hn : 1 ≤ s.length := List.length_pos.mpr hne
  have hget : ∀ i, i < s.length → s.getD i 0 = a := by
    intro i hi
    rw [List.getD_eq_getElem?_getD, List.getElem?_eq_getElem hi]
    exact hall _ (List.getElem_mem hi)
  simp only [percentileFn, if_neg hne]
  set k : ℚ := ((s.length - 1 : ℕ) : ℚ) * ((p : ℚ) / 100) with hkdef
  set f : ℕ := ⌊k⌋₊ with hfdef
  have hkle : k ≤ ((s.length - 1 : ℕ) : ℚ) := by
    rw [hkdef]
    have hp1 : ((p : ℚ) / 100) ≤ 1 := by
      rw [div_le_one (by norm_num)]
      exact_mod_cast hp
    calc ((s.length - 1 : ℕ) : ℚ) * ((p : ℚ) / 100)
        ≤ ((s.length - 1 : ℕ) : ℚ) * 1 := mul_le_mul_of_nonneg_left hp1 (by positivity)
      _ = _ := mul_one _
  have hf_le : f ≤ s.length - 1 := by
    rw [hfdef]
    have h := Nat.floor_le_floor hkle
    simpa [Nat.floor_natCast] using h
  by_cases hcase : f + 1 < s.length
  · rw [if_pos hcase, if_neg (by omega : ¬f = f + 1)]
    rw [hget f (by omega), hget (f + 1) (by omega)]
    push_cast
    ring
  · rw [if_neg hcase, if_pos rfl]
    exact hget f (by omega)

/-- C8: for every non-empty sample the reduced statistics satisfy
median ≤ p95 ≤ p99, and when all sample values are identical all three
are equal to that common value. -/
theorem percentile_monotone_chain (rt : List ℚ) (sc : List (ℕ × ℕ)) (errs : List String)
    (total : ℕ) (d : ℚ) (hne : rt ≠ []) :
    (calculateStats rt sc errs total d).median_response_time
      ≤ (calculateStats rt sc errs total d).p95_response_time
    ∧ (calculateStats rt sc errs total d).p95_response_time
      ≤ (calculateStats rt sc errs total d).p99_response_time
    ∧ (∀ a, (∀ x ∈ rt, x = a) →
        (calculateStats rt sc errs total d).median_response_time = a
        ∧ (calculateStats rt sc errs total d).p95_response_time = a
        ∧ (calculateStats rt sc errs total d).p99_response_time = a) := by
  have hslen : (pysorted rt).length = rt.length :=
    (List.perm_insertionSort _ _).length_eq
  have hn : 1 ≤ rt.length := List.length_pos.mpr hne
  have hsne : pysorted rt ≠ [] := by
    apply List.ne_nil_of_length_pos
    omega
  have hsorted : (pysorted rt).Sorted (· ≤ ·) := List.sorted_insertionSort _ _
  simp only [calculateStats, if_neg hne]
  refine ⟨?_, ?_, ?_⟩
  · rw [pymedian_eq_percentileFn_50 rt hne]
    exact percentileFn_mono _ hsorted hsne 50 95 (by norm_num) (by norm_num)
  · exact percentileFn_mono _ hsorted hsne 95 99 (by norm_num) (by norm_num)
  · intro a hall
    have hall' : ∀ x ∈ pysorted rt, x = a := by
      intro x hx
      exact hall x ((List.perm_insertionSort _ _).mem_iff.mp hx)
    refine ⟨?_, ?_, ?_⟩
    · rw [pymedian_eq_percentileFn_50 rt hne]
      exact percentileFn_const _ a hsne hall' 50 (by norm_num)
    · exact percentileFn_const _ a hsne hall' 95 (by norm_num)
    · exact percentileFn_const _ a hsne hall' 99 (by norm_num)

/-- C8 witness: the two-element all-equal sample [5, 5]. -/
theorem percentile_monotone_chain_witness :
    (calculateStats [(5 : ℚ), 5] [] [] 2 1).median_response_time
      ≤ (calculateStats [(5 : ℚ), 5] [] [] 2 1).p95_response_time
    ∧ (calculateStats [(5 : ℚ), 5] [] [] 2 1).p95_response_time
      ≤ (calculateStats [(5 : ℚ), 5] [] [] 2 1).p99_response_time
    ∧ (calculateStats [(5 : ℚ), 5] [] [] 2 1).p95_response_time = 5 :=
  ⟨(percentile_monotone_chain [(5 : ℚ), 5] [] [] 2 1 (by simp)).1,
    (percentile_monotone_chain [(5 : ℚ), 5] [] [] 2 1 (by simp)).2.1,
    ((percentile_monotone_chain [(5 : ℚ), 5] [] [] 2 1 (by simp)).2.2 5
      (by intro x hx; fin_cases hx <;> rfl)).2.1⟩

/-! ### Claim theorems: HTTP dispatch (headers and body per method) -/

/-- C9 counterexample: the body payload is NOT applied identically for
every method — a GET request drops the configured body entirely, while
a POST sends it. -/
theorem body_dropped_on_get :
    (buildRequest "GET" "http://x" none (some "payload")).content = none
    ∧ (buildRequest "POST" "http://x" none (some "payload")).content = some "payload"
    ∧ (none : Option String) ≠ some "payload" := by
  refine ⟨?_, ?_, by simp⟩ <;> simp [buildRequest, pyupper]

/-- C9 (amended): the headers mapping is applied identically for every
method; the body is applied for POST, PUT and any other non-GET/DELETE
verb, while GET and DELETE requests send no body. -/
theorem headers_always_body_per_method (method url : String)
    (headers : Option (List (String × String))) (body : Option String) :
    (buildRequest method url headers body).headers = headers
    ∧ ((pyupper method = "GET" ∨ pyupper method = "DELETE")
        → (buildRequest method url headers body).content = none)
    ∧ (pyupper method ≠ "GET" → pyupper method ≠ "DELETE"
        → (buildRequest method url headers body).content = body) := by
  unfold buildRequest
  split_ifs with h1 h2 h3 h4 <;> simp_all

/-- C9 witness: at POST the headers pass through and the body is sent;
at DELETE the body is suppressed. -/
theorem headers_always_body_per_method_witness :
    (buildRequest "POST" "http://x" (some [("a", "b")]) (some "p")).headers
      = some [("a", "b")]
    ∧ (buildRequest "POST" "http://x" (some [("a", "b")]) (some "p")).content = some "p"
    ∧ (buildRequest "DELETE" "http://x" (some [("a", "b")]) (some "p")).content = none :=
  ⟨(headers_always_body_per_method "POST" "http://x" (some [("a", "b")]) (some "p")).1,
    (headers_always_body_per_method "POST" "http://x" (some [("a", "b")]) (some "p")).2.2
      (by decide) (by decide),
    (headers_always_body_per_method "DELETE" "http://x" (some [("a", "b")]) (some "p")).2.1
      (Or.inr (by decide))⟩

end PerfWatch
